import Mathlib

/-!
Shallow embedding of the `fsm` Go package: the transition engine (`src/fsm.go`),
the serialized wrapper `QueuedFSM` (two variants: `src/queued_fsm.go` using
`parallel.Notification` and `src/unnamed/part_001` using `sync.WaitGroup`), and
the preemption protocol of `PreemptiveFSM` (`src/unnamed/part_000`).

Go maps keyed by strings are embedded as association lists with a
lookup/insert pair; Go `error` values become an inductive `Err` type with
`none : Option Err` standing for the nil error; a Go panic is a distinguished
constructor of the result type of `ProcessEvent`.
-/

namespace FsmGo

/-- A value implementing the Go `State` interface: an opaque value exposing a
string identifier via `FSMStateID`.  The `data` field stands for whatever else
the concrete Go type carries, so two distinct states may share an identifier. -/
structure State where
  id : String
  data : Nat := 0
deriving DecidableEq, Repr

def State.FSMStateID (s : State) : String := s.id

/-- A value implementing the Go `Event` interface. -/
structure Event where
  id : String
  data : Nat := 0
deriving DecidableEq, Repr

def Event.FSMEventID (e : Event) : String := e.id

/-- Go `error` values.  `alreadyExists` and `noTransition` are the two sentinel
errors of `src/fsm.go`; `msg` embeds `errors.New(fmt.Sprintf(...))` values such
as the not-found errors; `custom` stands for opaque action-originated errors. -/
inductive Err where
  | alreadyExists
  | noTransition
  | msg (s : String)
  | custom (n : Nat)
deriving DecidableEq, Repr

/-- `stateNotFound` from `src/fsm.go`. -/
def stateNotFound (state : State) : Err :=
  .msg ("state " ++ state.FSMStateID ++ " not found")

/-- `eventNotFound` from `src/fsm.go`. -/
def eventNotFound (event : String) : Err :=
  .msg ("event " ++ event ++ " not found")

/-- The panic message `ShouldNotReEnterPanic` from `src/fsm.go`. -/
def ShouldNotReEnterPanic : String :=
  "the process event should not re-enter. i.e., ProcessEvent should not be invoked in action/guard"

/-- Association-list embedding of a Go `map[string]α`: lookup. -/
def findReg {α : Type} : List (String × α) → String → Option α
  | [], _ => none
  | (k, v) :: rest, key => if key = k then some v else findReg rest key

/-- Association-list embedding of a Go `map[string]α`: `m[k] = v` assignment. -/
def insertReg {α : Type} : List (String × α) → String → α → List (String × α)
  | [], key, v => [(key, v)]
  | (k, w) :: rest, key, v =>
    if key = k then (key, v) :: rest else (k, w) :: insertReg rest key v

/-- The internal `transition` struct of `src/fsm.go`.  The Go `guard` and
`action` fields take the FSM payload (of opaque type `π`) and the event;
`action` returns a Go error (`none` = nil). -/
structure Transition (π : Type) where
  toState : State
  guard : π → Event → Bool
  action : π → Event → Option Err

/-- The `FSM` struct of `src/fsm.go`, payload type `π` standing for the Go
`interface{}` payload. -/
structure FSM (π : Type) where
  curState : String
  states : List (String × State)
  events : List (String × Nat)
  transitions : List (String × List (String × List (Transition π)))
  payload : π
  processEventInvokeCounter : Nat

variable {π : Type}

/-- `NewFSM` from `src/fsm.go`. -/
def NewFSM (initState : State) (payload : π) : FSM π :=
  { curState := initState.FSMStateID
    states := [(initState.FSMStateID, initState)]
    events := []
    transitions := []
    payload := payload
    processEventInvokeCounter := 0 }

/-- `defaultAction` from `src/fsm.go`: do nothing, return nil. -/
def defaultAction : π → Event → Option Err := fun _ _ => none

/-- `defaultGuard` from `src/fsm.go`: always true. -/
def defaultGuard : π → Event → Bool := fun _ _ => true

/-- `FSM.HasEvent` from `src/fsm.go`. -/
def FSM.HasEvent (fsm : FSM π) (evID : String) : Bool :=
  (findReg fsm.events evID).isSome

/-- `FSM.HasState` from `src/fsm.go`. -/
def FSM.HasState (fsm : FSM π) (state : State) : Bool :=
  (findReg fsm.states state.FSMStateID).isSome

/-- `FSM.CurrentState` from `src/fsm.go`: a Go map read of a missing key
yields the nil interface value, embedded as `none`. -/
def FSM.CurrentState (fsm : FSM π) : Option State :=
  findReg fsm.states fsm.curState

/-- `FSM.AddState` from `src/fsm.go`.  Returns the Go error and the updated
receiver. -/
def FSM.AddState (fsm : FSM π) (state : State) : Option Err × FSM π :=
  if fsm.HasState state then (some .alreadyExists, fsm)
  else (none, { fsm with states := insertReg fsm.states state.FSMStateID state })

/-- `FSM.AddEvent` from `src/fsm.go`. -/
def FSM.AddEvent (fsm : FSM π) (eventID : String) : Option Err × FSM π :=
  if fsm.HasEvent eventID then (some .alreadyExists, fsm)
  else (none, { fsm with events := insertReg fsm.events eventID 0 })

/-- `FSM.AddTransition` from `src/fsm.go`.  `action?`/`guard?` embed the Go
nil-able function arguments; nil is replaced by the defaults before any check.
The validity checks run in source order: `from`, then the event, then `to`. -/
def FSM.AddTransition (fsm : FSM π) (fromState : State) (evId : String) (toS : State)
    (action? : Option (π → Event → Option Err)) (guard? : Option (π → Event → Bool)) :
    Option Err × FSM π :=
  let action := action?.getD defaultAction
  let guard := guard?.getD defaultGuard
  if fsm.HasState fromState = false then (some (stateNotFound fromState), fsm)
  else if fsm.HasEvent evId = false then (some (eventNotFound evId), fsm)
  else if fsm.HasState toS = false then (some (stateNotFound toS), fsm)
  else
    let fromID := fromState.FSMStateID
    let evMap := (findReg fsm.transitions fromID).getD []
    let tList := (findReg evMap evId).getD []
    let evMap' := insertReg evMap evId (tList ++ [⟨toS, guard, action⟩])
    (none, { fsm with transitions := insertReg fsm.transitions fromID evMap' })

/-- Result of `FSM.ProcessEvent`: either a Go panic with its message, or a
normal return carrying the returned error and the updated receiver. -/
inductive PEResult (π : Type) where
  | panicked (message : String)
  | ok (err : Option Err) (fsm : FSM π)

/-- The `for _, t := range transList` loop body of `FSM.ProcessEvent`: skip
transitions whose guard is false; for the first true guard run the action,
return its error on failure, otherwise commit the target state and return nil.
A fully traversed list returns `NoTransition`. -/
def processTransList (fsm : FSM π) (ev : Event) : List (Transition π) → Option Err × FSM π
  | [] => (some .noTransition, fsm)
  | t :: rest =>
    if t.guard fsm.payload ev then
      match t.action fsm.payload ev with
      | some e => (some e, fsm)
      | none => (none, { fsm with curState := t.toState.FSMStateID })
    else processTransList fsm ev rest

/-- `FSM.ProcessEvent` from `src/fsm.go`: increment the reentrancy counter,
panic when it is not exactly 1 afterwards, dispatch, and (per the deferred
function) decrement the counter on every normal exit path. -/
def FSM.ProcessEvent (fsm : FSM π) (ev : Event) : PEResult π :=
  let fsm1 : FSM π :=
    { fsm with processEventInvokeCounter := fsm.processEventInvokeCounter + 1 }
  if fsm1.processEventInvokeCounter ≠ 1 then .panicked ShouldNotReEnterPanic
  else
    let finish : Option Err × FSM π → PEResult π := fun r =>
      .ok r.1 { r.2 with processEventInvokeCounter := r.2.processEventInvokeCounter - 1 }
    match findReg fsm1.transitions fsm1.curState with
    | none => finish (some .noTransition, fsm1)
    | some transMap =>
      match findReg transMap ev.FSMEventID with
      | none => finish (some .noTransition, fsm1)
      | some transList => finish (processTransList fsm1 ev transList)

/-! ### QueuedFSM (`src/queued_fsm.go` and `src/unnamed/part_001`)

Both files define the same worker loop; their `ProcessEvent` methods differ
only in the one-shot blocking primitive the caller waits on:
`parallel.Notification` in `src/queued_fsm.go`, a `sync.WaitGroup` in
`src/unnamed/part_001`.  The handoff of the entry over `evChan` and the
caller's block-until-completion collapse, in this sequential embedding, to
running the worker's loop body on the entry and reading the slot written by
`onComplete`. -/

/-- The `queuedEventEntry` struct (both files).  Its `onComplete` callback is
modelled at each use site by the wiring of the caller's locals below. -/
structure queuedEventEntry where
  ev : Event

/-- `parallel.Notification`: a one-shot completion signal; `Done` fires it. -/
structure Notification where
  fired : Bool

def Notification.NewNotification : Notification := { fired := false }

def Notification.Done (n : Notification) : Notification := { n with fired := true }

/-- `sync.WaitGroup` as used by `src/unnamed/part_001`: a counter; `Add`
raises it, `Done` lowers it, `Wait` blocks until it reaches zero. -/
structure WaitGroup where
  counter : Nat

def WaitGroup.Add (w : WaitGroup) (n : Nat) : WaitGroup := { counter := w.counter + n }

def WaitGroup.Done (w : WaitGroup) : WaitGroup := { counter := w.counter - 1 }

/-- One iteration of `QueuedFSM.mainLoop` on a non-sentinel entry — the loop
body `ev.onComplete(q.FSM.ProcessEvent(ev.ev))` is identical in
`src/queued_fsm.go` and `src/unnamed/part_001`.  Returns what the iteration
hands to `onComplete` together with the updated engine (or the panic the
engine raised, which kills the worker). -/
def queuedMainLoopIter (fsm : FSM π) (entry : queuedEventEntry) : PEResult π :=
  fsm.ProcessEvent entry.ev

/-- `QueuedFSM.ProcessEvent` of `src/queued_fsm.go`: allocate a
`parallel.Notification`, hand the entry to the worker loop; `onComplete`
stores the engine's error into `errResult` and fires the notification; the
caller waits on the notification and returns `errResult`. -/
def QueuedProcessEventNotif (fsm : FSM π) (ev : Event) : PEResult π :=
  let notification := Notification.NewNotification
  match queuedMainLoopIter fsm { ev := ev } with
  | .panicked m => .panicked m
  | .ok err fsm' =>
    let errResult := err
    let notification := notification.Done
    match notification.fired with
    | true => .ok errResult fsm'
    | false => .ok errResult fsm'

/-- `QueuedFSM.ProcessEvent` of `src/unnamed/part_001`: allocate a
`sync.WaitGroup` at 1, hand the entry to the worker loop; `onComplete` stores
the engine's error into `errResult` and calls `wg.Done()`; the caller waits
for the group to reach zero and returns `errResult`. -/
def QueuedProcessEventWG (fsm : FSM π) (ev : Event) : PEResult π :=
  let wg := WaitGroup.Add { counter := 0 } 1
  match queuedMainLoopIter fsm { ev := ev } with
  | .panicked m => .panicked m
  | .ok err fsm' =>
    let errResult := err
    let wg := wg.Done
    match wg.counter with
    | 0 => .ok errResult fsm'
    | _ + 1 => .ok errResult fsm'

/-! ### PreemptiveFSM (`src/unnamed/part_000`)

The cross-context protocol of `PreemptiveFSM.mainLoop` is embedded as a step
function over the shared mutable state (the `nextEntry` slot and the
`exitFlag`), driven by the three things that can happen under the
`nextEntrySetCond` lock: the dispatcher receives an entry from `evChan`, the
worker claims the slot, or the dispatcher receives the nil shutdown
sentinel.  Completions fired while holding (or immediately after releasing)
the lock are recorded as outputs. -/

/-- A `preemptiveEventEntry`: the submitted event plus a tag distinguishing
distinct submissions carrying equal events. -/
structure PEntry where
  ev : Event
  tag : Nat := 0
deriving DecidableEq, Repr

/-- The shared mutable state of the preemption protocol. -/
structure PState where
  nextEntry : Option PEntry
  exitFlag : Bool
deriving DecidableEq, Repr

/-- The three lock-protected steps of `PreemptiveFSM.mainLoop`. -/
inductive PAction where
  | arrive (e : PEntry)
  | claim
  | closeReq
deriving DecidableEq, Repr

/-- Observable completions of the protocol: an entry's `onComplete` fulfilled
with the preemption error, or an entry claimed by the worker (which then runs
`FSM.ProcessEvent` on it). -/
inductive POut where
  | preempted (e : PEntry)
  | claimed (e : PEntry)
deriving DecidableEq, Repr

/-- One step of the protocol, from `src/unnamed/part_000`:
* `arrive e` — the dispatcher stores `e` into `nextEntry`, and if the slot
  previously held an unclaimed entry, fulfills that entry's completion with
  the preemption error;
* `claim` — the worker, seeing the exit flag unset and the slot non-empty,
  takes the slot's entry and clears the slot (when the slot is empty or the
  exit flag is set the worker keeps waiting or exits: no state change);
* `closeReq` — the dispatcher stores the nil sentinel (clearing the slot) and
  sets the exit flag, preempting any unclaimed occupant. -/
def pstep (st : PState) : PAction → PState × List POut
  | .arrive e =>
    ({ nextEntry := some e, exitFlag := st.exitFlag },
      match st.nextEntry with
      | some prev => [.preempted prev]
      | none => [])
  | .claim =>
    if st.exitFlag then (st, [])
    else
      match st.nextEntry with
      | some e => ({ nextEntry := none, exitFlag := st.exitFlag }, [.claimed e])
      | none => (st, [])
  | .closeReq =>
    ({ nextEntry := none, exitFlag := true },
      match st.nextEntry with
      | some prev => [.preempted prev]
      | none => [])

/-- Run a sequence of protocol steps, collecting outputs in order. -/
def prun (st : PState) : List PAction → PState × List POut
  | [] => (st, [])
  | a :: rest =>
    let r1 := pstep st a
    let r2 := prun r1.1 rest
    (r2.1, r1.2 ++ r2.2)

/-! ### Reachable engines -/

/-- Engines reachable from `NewFSM` by any sequence of `AddState`, `AddEvent`,
`AddTransition` calls and non-reentrant (normally returning) `ProcessEvent`
calls. -/
inductive Reachable : FSM π → Prop where
  | new (s : State) (p : π) : Reachable (NewFSM s p)
  | addState {f : FSM π} (s : State) :
      Reachable f → Reachable (f.AddState s).2
  | addEvent {f : FSM π} (e : String) :
      Reachable f → Reachable (f.AddEvent e).2
  | addTransition {f : FSM π} (fromState : State) (evId : String) (toS : State)
      (a? : Option (π → Event → Option Err)) (g? : Option (π → Event → Bool)) :
      Reachable f → Reachable (f.AddTransition fromState evId toS a? g?).2
  | processEvent {f f' : FSM π} {ev : Event} {err : Option Err} :
      Reachable f → f.ProcessEvent ev = .ok err f' → Reachable f'

/-! ### Helper definitions and lemmas -/

/-- The transition list consulted by the engine for the pair
`(fsm.curState, ev.FSMEventID)` — the two comma-ok map reads of
`FSM.ProcessEvent` combined. -/
def FSM.transList (fsm : FSM π) (ev : Event) : Option (List (Transition π)) :=
  (findReg fsm.transitions fsm.curState).bind fun m => findReg m ev.FSMEventID

/-- The registered transition list for a `(state id, event id)` pair, empty
when absent (Go nil-map and nil-slice reads). -/
def FSM.transListFor (fsm : FSM π) (sid eid : String) : List (Transition π) :=
  (findReg ((findReg fsm.transitions sid).getD []) eid).getD []

/-- The dispatch core of `FSM.ProcessEvent` with the reentrancy bookkeeping
stripped: look up the transition list and walk it. -/
def dispatch (fsm : FSM π) (ev : Event) : Option Err × FSM π :=
  match fsm.transList ev with
  | none => (some .noTransition, fsm)
  | some transList => processTransList fsm ev transList

theorem findReg_insertReg_self {α : Type} (m : List (String × α)) (k : String) (v : α) :
    findReg (insertReg m k v) k = some v := by
  induction m with
  | nil => simp [insertReg, findReg]
  | cons p rest ih =>
    obtain ⟨k', w⟩ := p
    by_cases h : k = k'
    · simp [insertReg, findReg, h]
    · simp [insertReg, findReg, h, ih]

theorem findReg_insertReg_ne {α : Type} (m : List (String × α)) (k key : String) (v : α)
    (h : key ≠ k) : findReg (insertReg m k v) key = findReg m key := by
  induction m with
  | nil => simp [insertReg, findReg, h]
  | cons p rest ih =>
    obtain ⟨k', w⟩ := p
    by_cases hk : k = k'
    · subst hk
      simp [insertReg, findReg, h]
    · by_cases hkey : key = k'
      · simp [insertReg, findReg, hk, hkey]
      · simp [insertReg, findReg, hk, hkey, ih]

theorem isSome_findReg_insertReg {α : Type} (m : List (String × α)) (k key : String) (v : α)
    (h : (findReg m key).isSome) : (findReg (insertReg m k v) key).isSome := by
  by_cases hk : key = k
  · subst hk
    simp [findReg_insertReg_self]
  · rwa [findReg_insertReg_ne m k key v hk]

theorem processTransList_preserves (fsm : FSM π) (ev : Event) (tl : List (Transition π)) :
    (processTransList fsm ev tl).2.states = fsm.states ∧
    (processTransList fsm ev tl).2.events = fsm.events ∧
    (processTransList fsm ev tl).2.transitions = fsm.transitions ∧
    (processTransList fsm ev tl).2.payload = fsm.payload ∧
    (processTransList fsm ev tl).2.processEventInvokeCounter
      = fsm.processEventInvokeCounter := by
  induction tl with
  | nil => simp [processTransList]
  | cons t rest ih =>
    simp only [processTransList]
    cases hg : t.guard fsm.payload ev with
    | false => simpa [hg] using ih
    | true =>
      cases ha : t.action fsm.payload ev with
      | none => simp [hg, ha]
      | some e => simp [hg, ha]

theorem processTransList_curState (fsm : FSM π) (ev : Event) (tl : List (Transition π)) :
    (processTransList fsm ev tl).2.curState = fsm.curState ∨
    ∃ t ∈ tl, t.guard fsm.payload ev = true ∧
      (processTransList fsm ev tl).2.curState = t.toState.FSMStateID := by
  induction tl with
  | nil => simp [processTransList]
  | cons t rest ih =>
    simp only [processTransList]
    cases hg : t.guard fsm.payload ev with
    | false =>
      simp only [hg, Bool.false_eq_true, if_false]
      rcases ih with h | ⟨t', ht', hg', hcur⟩
      · exact Or.inl h
      · exact Or.inr ⟨t', List.mem_cons_of_mem _ ht', hg', hcur⟩
    | true =>
      cases ha : t.action fsm.payload ev with
      | none => exact Or.inr ⟨t, List.mem_cons_self _ _, hg, by simp [hg, ha]⟩
      | some e => simp [hg, ha]

theorem processTransList_setCounter (fsm : FSM π) (ev : Event) (tl : List (Transition π))
    (c : Nat) :
    processTransList { fsm with processEventInvokeCounter := c } ev tl =
      ((processTransList fsm ev tl).1,
        { (processTransList fsm ev tl).2 with processEventInvokeCounter := c }) := by
  induction tl with
  | nil => simp [processTransList]
  | cons t rest ih =>
    simp only [processTransList]
    cases hg : t.guard fsm.payload ev with
    | false => simpa [hg] using ih
    | true =>
      cases ha : t.action fsm.payload ev with
      | none => simp [hg, ha]
      | some e => simp [hg, ha]

theorem setCounter_self (fsm : FSM π) (c : Nat)
    (h : fsm.processEventInvokeCounter = c) :
    ({ fsm with processEventInvokeCounter := c } : FSM π) = fsm := by
  cases fsm
  simp_all

theorem processEvent_eq_dispatch (fsm : FSM π) (ev : Event)
    (hc : fsm.processEventInvokeCounter = 0) :
    fsm.ProcessEvent ev = .ok (dispatch fsm ev).1 (dispatch fsm ev).2 := by
  have hpre := processTransList_preserves fsm ev
  unfold FSM.ProcessEvent dispatch FSM.transList
  simp only [hc]
  cases hfr : findReg fsm.transitions fsm.curState with
  | none =>
    simp [hfr, setCounter_self fsm 0 hc]
  | some m =>
    cases hfe : findReg m ev.FSMEventID with
    | none =>
      simp [hfr, hfe, setCounter_self fsm 0 hc]
    | some tl =>
      simp only [hfr, hfe, processTransList_setCounter fsm ev tl 1]
      have hcnt : (processTransList fsm ev tl).2.processEventInvokeCounter = 0 :=
        (hpre tl).2.2.2.2.trans hc
      simp [hfe, setCounter_self _ 0 hcnt]

theorem processTransList_append_false (fsm : FSM π) (ev : Event)
    (pre rest : List (Transition π))
    (h : ∀ t ∈ pre, t.guard fsm.payload ev = false) :
    processTransList fsm ev (pre ++ rest) = processTransList fsm ev rest := by
  induction pre with
  | nil => rfl
  | cons t pre' ih =>
    have ht : t.guard fsm.payload ev = false := h t (List.mem_cons_self _ _)
    simp only [List.cons_append, processTransList, ht, Bool.false_eq_true, if_false]
    exact ih fun t' ht' => h t' (List.mem_cons_of_mem _ ht')

theorem processTransList_all_false (fsm : FSM π) (ev : Event) (tl : List (Transition π))
    (h : ∀ t ∈ tl, t.guard fsm.payload ev = false) :
    processTransList fsm ev tl = (some .noTransition, fsm) := by
  have := processTransList_append_false fsm ev tl [] h
  simpa using this

theorem dispatch_preserves (fsm : FSM π) (ev : Event) :
    (dispatch fsm ev).2.states = fsm.states ∧
    (dispatch fsm ev).2.events = fsm.events ∧
    (dispatch fsm ev).2.transitions = fsm.transitions ∧
    (dispatch fsm ev).2.payload = fsm.payload ∧
    (dispatch fsm ev).2.processEventInvokeCounter = fsm.processEventInvokeCounter := by
  unfold dispatch
  cases h : fsm.transList ev with
  | none => simp
  | some tl => simpa using processTransList_preserves fsm ev tl

theorem processEvent_panicked_of_ne (fsm : FSM π) (ev : Event)
    (h : fsm.processEventInvokeCounter ≠ 0) :
    fsm.ProcessEvent ev = .panicked ShouldNotReEnterPanic := by
  unfold FSM.ProcessEvent
  have h1 : fsm.processEventInvokeCounter + 1 ≠ 1 := by omega
  simp [h1]

/-! ### Concrete fixtures used by the witnesses -/

def wOff : State := { id := "off" }

def wOn : State := { id := "on" }

def wSwitch : Event := { id := "switch" }

/-- Guard false: never eligible. -/
def wT1 : Transition Nat :=
  { toState := wOn, guard := fun _ _ => false, action := fun _ _ => none }

/-- Guard true, action succeeds. -/
def wT2 : Transition Nat :=
  { toState := wOn, guard := fun _ _ => true, action := fun _ _ => none }

/-- Guard true, action fails with `custom 7`. -/
def wT3 : Transition Nat :=
  { toState := wOn, guard := fun _ _ => true, action := fun _ _ => some (.custom 7) }

def wFSM1 : FSM Nat :=
  { curState := "off"
    states := [("off", wOff), ("on", wOn)]
    events := [("switch", 0)]
    transitions := [("off", [("switch", [wT1, wT2])])]
    payload := 0
    processEventInvokeCounter := 0 }

def wFSM2 : FSM Nat :=
  { wFSM1 with transitions := [("off", [("switch", [wT1, wT3])])] }

def wFSM3 : FSM Nat := NewFSM wOff 0

/-- An engine observed mid-call: the counter was incremented by an in-flight
`ProcessEvent` and not yet decremented. -/
def wFSMre : FSM Nat := { wFSM3 with processEventInvokeCounter := 1 }

/-! ### Claim theorems -/

/-- Claim C1: for an engine with a transition list registered for
`(currentState, event.ID)`, `ProcessEvent` iterates the list in registration
order and takes exactly the first transition whose guard returns true: it
invokes that transition's action and, on action success, sets the current
state to that transition's target and returns nil. -/
theorem processEvent_first_true_guard (fsm : FSM π) (ev : Event)
    (pre rest : List (Transition π)) (t : Transition π)
    (hc : fsm.processEventInvokeCounter = 0)
    (hl : fsm.transList ev = some (pre ++ t :: rest))
    (hpre : ∀ t' ∈ pre, t'.guard fsm.payload ev = false)
    (hg : t.guard fsm.payload ev = true)
    (ha : t.action fsm.payload ev = none) :
    fsm.ProcessEvent ev = .ok none { fsm with curState := t.toState.FSMStateID } := by
  rw [processEvent_eq_dispatch fsm ev hc]
  simp only [dispatch, hl]
  rw [processTransList_append_false fsm ev pre (t :: rest) hpre]
  simp [processTransList, hg, ha]

/-- Witness for C1: on `wFSM1`, whose list for `(off, switch)` is
`[wT1, wT2]` with guards false then true, `ProcessEvent` takes `wT2` and
advances to `on`. -/
theorem processEvent_first_true_guard_witness :
    wFSM1.ProcessEvent wSwitch = .ok none { wFSM1 with curState := "on" } :=
  processEvent_first_true_guard wFSM1 wSwitch [wT1] [] wT2 rfl rfl
    (fun t' ht' => by
      rw [List.mem_singleton] at ht'
      subst ht'
      rfl)
    rfl rfl

/-- Claim C3: if the selected transition's action returns a non-nil error,
`ProcessEvent` returns that exact error value, the receiver — in particular
its current state — is left untouched, and the remaining transitions (an
arbitrary `rest`) are never tried. -/
theorem processEvent_action_error (fsm : FSM π) (ev : Event)
    (pre rest : List (Transition π)) (t : Transition π) (e : Err)
    (hc : fsm.processEventInvokeCounter = 0)
    (hl : fsm.transList ev = some (pre ++ t :: rest))
    (hpre : ∀ t' ∈ pre, t'.guard fsm.payload ev = false)
    (hg : t.guard fsm.payload ev = true)
    (ha : t.action fsm.payload ev = some e) :
    fsm.ProcessEvent ev = .ok (some e) fsm := by
  rw [processEvent_eq_dispatch fsm ev hc]
  simp only [dispatch, hl]
  rw [processTransList_append_false fsm ev pre (t :: rest) hpre]
  simp [processTransList, hg, ha]

/-- Witness for C3: on `wFSM2`, whose selected transition's action fails with
`custom 7`, `ProcessEvent` returns exactly that error and the engine —
including its current state — is unchanged. -/
theorem processEvent_action_error_witness :
    wFSM2.ProcessEvent wSwitch = .ok (some (.custom 7)) wFSM2 :=
  processEvent_action_error wFSM2 wSwitch [wT1] [] wT3 (.custom 7) rfl rfl
    (fun t' ht' => by
      rw [List.mem_singleton] at ht'
      subst ht'
      rfl)
    rfl rfl

/-- Claim C4: if no transition list exists for `(currentState, event.ID)`, or
every guard in that list returns false, `ProcessEvent` returns the
`NoTransition` error and the receiver — in particular the current state — is
unchanged. -/
theorem processEvent_noTransition (fsm : FSM π) (ev : Event)
    (hc : fsm.processEventInvokeCounter = 0)
    (h : fsm.transList ev = none ∨
      ∃ tl, fsm.transList ev = some tl ∧ ∀ t ∈ tl, t.guard fsm.payload ev = false) :
    fsm.ProcessEvent ev = .ok (some .noTransition) fsm := by
  rw [processEvent_eq_dispatch fsm ev hc]
  rcases h with h | ⟨tl, hl, hall⟩
  · simp [dispatch, h]
  · simp [dispatch, hl, processTransList_all_false fsm ev tl hall]

/-- Witness for C4: a freshly constructed engine has no transition list at
all, so `ProcessEvent` returns `NoTransition` and leaves it unchanged. -/
theorem processEvent_noTransition_witness :
    wFSM3.ProcessEvent wSwitch = .ok (some .noTransition) wFSM3 :=
  processEvent_noTransition wFSM3 wSwitch rfl (Or.inl rfl)

/-- Claim C5: reentrant invocation is a panic, never a returned error: when
the call-depth counter is nonzero at entry (an in-flight call incremented it),
the incremented counter is not 1 and `ProcessEvent` panics with
`ShouldNotReEnterPanic`; and every normal return entered with the counter at 0
and exits (via the deferred decrement, on every exit path) with it back at
0. -/
theorem processEvent_reentrancy (fsm : FSM π) (ev : Event) :
    (fsm.processEventInvokeCounter ≠ 0 →
      fsm.ProcessEvent ev = .panicked ShouldNotReEnterPanic) ∧
    (∀ err fsm', fsm.ProcessEvent ev = .ok err fsm' →
      fsm.processEventInvokeCounter = 0 ∧ fsm'.processEventInvokeCounter = 0) := by
  constructor
  · exact processEvent_panicked_of_ne fsm ev
  · intro err fsm' h
    by_cases hc : fsm.processEventInvokeCounter = 0
    · refine ⟨hc, ?_⟩
      rw [processEvent_eq_dispatch fsm ev hc] at h
      injection h with h1 h2
      subst h2
      exact ((dispatch_preserves fsm ev).2.2.2.2).trans hc
    · rw [processEvent_panicked_of_ne fsm ev hc] at h
      exact absurd h (by simp)

/-- Witness for C5: a mid-call engine (`counter = 1`) panics on a nested
`ProcessEvent`; a quiescent engine returns normally with the counter at 0
before and after. -/
theorem processEvent_reentrancy_witness :
    wFSMre.ProcessEvent wSwitch = .panicked ShouldNotReEnterPanic ∧
    (wFSM3.processEventInvokeCounter = 0 ∧ wFSM3.processEventInvokeCounter = 0) :=
  ⟨(processEvent_reentrancy wFSMre wSwitch).1 (by decide),
   (processEvent_reentrancy wFSM3 wSwitch).2 (some .noTransition) wFSM3 rfl⟩

def wBase : FSM Nat :=
  { curState := "off"
    states := [("off", wOff), ("on", wOn)]
    events := [("switch", 0)]
    transitions := []
    payload := 0
    processEventInvokeCounter := 0 }

def wMissing : State := { id := "zz" }

/-- Same identifier as `wOff`, different carried data. -/
def wOffDup : State := { id := "off", data := 5 }

/-- Claim C7: `AddTransition` with an unregistered `from`, event, or `to`
returns the corresponding "not found" error naming the missing entity and
records nothing (the receiver is returned unchanged); with all three
registered it returns nil and appends exactly one transition to the ordered
list for `(from, eventID)`, leaving every other pair's list unchanged. -/
theorem addTransition_spec (fsm : FSM π) (fromState : State) (evId : String) (toS : State)
    (a? : Option (π → Event → Option Err)) (g? : Option (π → Event → Bool)) :
    (fsm.HasState fromState = false →
      fsm.AddTransition fromState evId toS a? g? = (some (stateNotFound fromState), fsm)) ∧
    (fsm.HasState fromState = true → fsm.HasEvent evId = false →
      fsm.AddTransition fromState evId toS a? g? = (some (eventNotFound evId), fsm)) ∧
    (fsm.HasState fromState = true → fsm.HasEvent evId = true → fsm.HasState toS = false →
      fsm.AddTransition fromState evId toS a? g? = (some (stateNotFound toS), fsm)) ∧
    (fsm.HasState fromState = true → fsm.HasEvent evId = true → fsm.HasState toS = true →
      (fsm.AddTransition fromState evId toS a? g?).1 = none ∧
      ∀ sid eid, (fsm.AddTransition fromState evId toS a? g?).2.transListFor sid eid =
        if sid = fromState.FSMStateID ∧ eid = evId then
          fsm.transListFor sid eid ++ [⟨toS, g?.getD defaultGuard, a?.getD defaultAction⟩]
        else fsm.transListFor sid eid) := by
  refine ⟨?_, ?_, ?_, ?_⟩
  · intro h
    simp [FSM.AddTransition, h]
  · intro h1 h2
    simp [FSM.AddTransition, h1, h2]
  · intro h1 h2 h3
    simp [FSM.AddTransition, h1, h2, h3]
  · intro h1 h2 h3
    refine ⟨by simp [FSM.AddTransition, h1, h2, h3], ?_⟩
    intro sid eid
    by_cases hs : sid = fromState.FSMStateID
    · subst hs
      by_cases he : eid = evId
      · subst he
        simp [FSM.AddTransition, h1, h2, h3, FSM.transListFor, findReg_insertReg_self]
      · simp [FSM.AddTransition, h1, h2, h3, FSM.transListFor, findReg_insertReg_self,
          findReg_insertReg_ne _ _ _ _ he, he]
    · simp [FSM.AddTransition, h1, h2, h3, FSM.transListFor,
        findReg_insertReg_ne _ _ _ _ hs, hs]

/-- Witness for C7: on `wBase` (states `off`/`on`, event `switch`, no
transitions) each missing-entity case returns its "not found" error with the
engine unchanged, and the fully registered call appends the one new
transition for `(off, switch)`. -/
theorem addTransition_spec_witness :
    wBase.AddTransition wMissing "switch" wOn none none
      = (some (stateNotFound wMissing), wBase) ∧
    wBase.AddTransition wOff "nope" wOn none none
      = (some (eventNotFound "nope"), wBase) ∧
    wBase.AddTransition wOff "switch" wMissing none none
      = (some (stateNotFound wMissing), wBase) ∧
    (wBase.AddTransition wOff "switch" wOn none none).1 = none ∧
    (wBase.AddTransition wOff "switch" wOn none none).2.transListFor "off" "switch"
      = wBase.transListFor "off" "switch" ++ [⟨wOn, defaultGuard, defaultAction⟩] := by
  refine ⟨?_, ?_, ?_, ?_, ?_⟩
  · exact (addTransition_spec wBase wMissing "switch" wOn none none).1 (by decide)
  · exact (addTransition_spec wBase wOff "nope" wOn none none).2.1 (by decide) (by decide)
  · exact (addTransition_spec wBase wOff "switch" wMissing none none).2.2.1
      (by decide) (by decide) (by decide)
  · exact ((addTransition_spec wBase wOff "switch" wOn none none).2.2.2
      (by decide) (by decide) (by decide)).1
  · have h := ((addTransition_spec wBase wOff "switch" wOn none none).2.2.2
      (by decide) (by decide) (by decide)).2 "off" "switch"
    simpa [wOff, State.FSMStateID] using h

/-- Claim C8: `AddState` on an already registered identifier (and `AddEvent`
on an already registered event identifier) returns `AlreadyExists` with the
receiver unchanged; otherwise the call returns nil, the identifier is
registered afterwards, and every other key of the registry is unchanged. -/
theorem addState_addEvent_spec (fsm : FSM π) (s : State) (eid : String) :
    (fsm.HasState s = true → fsm.AddState s = (some .alreadyExists, fsm)) ∧
    (fsm.HasState s = false →
      (fsm.AddState s).1 = none ∧
      findReg (fsm.AddState s).2.states s.FSMStateID = some s ∧
      ∀ k, k ≠ s.FSMStateID →
        findReg (fsm.AddState s).2.states k = findReg fsm.states k) ∧
    (fsm.HasEvent eid = true → fsm.AddEvent eid = (some .alreadyExists, fsm)) ∧
    (fsm.HasEvent eid = false →
      (fsm.AddEvent eid).1 = none ∧
      (fsm.AddEvent eid).2.HasEvent eid = true ∧
      ∀ k, k ≠ eid →
        findReg (fsm.AddEvent eid).2.events k = findReg fsm.events k) := by
  refine ⟨?_, ?_, ?_, ?_⟩
  · intro h
    simp [FSM.AddState, h]
  · intro h
    refine ⟨by simp [FSM.AddState, h], ?_, ?_⟩
    · simp [FSM.AddState, h, findReg_insertReg_self]
    · intro k hk
      simp [FSM.AddState, h, findReg_insertReg_ne _ _ _ _ hk]
  · intro h
    simp [FSM.AddEvent, h]
  · intro h
    refine ⟨by simp [FSM.AddEvent, h], ?_, ?_⟩
    · have h' : (findReg fsm.events eid).isSome = false := h
      simp [FSM.AddEvent, FSM.HasEvent, h, h', findReg_insertReg_self]
    · intro k hk
      simp [FSM.AddEvent, h, findReg_insertReg_ne _ _ _ _ hk]

/-- Witness for C8: re-adding `off` or `switch` to `wBase` returns
`AlreadyExists` with the engine unchanged; adding the fresh state `zz` and
the fresh event `flip` returns nil and registers them. -/
theorem addState_addEvent_spec_witness :
    wBase.AddState wOff = (some .alreadyExists, wBase) ∧
    ((wBase.AddState wMissing).1 = none ∧
      findReg (wBase.AddState wMissing).2.states wMissing.FSMStateID = some wMissing) ∧
    wBase.AddEvent "switch" = (some .alreadyExists, wBase) ∧
    ((wBase.AddEvent "flip").1 = none ∧
      (wBase.AddEvent "flip").2.HasEvent "flip" = true) := by
  refine ⟨?_, ⟨?_, ?_⟩, ?_, ⟨?_, ?_⟩⟩
  · exact (addState_addEvent_spec wBase wOff "switch").1 (by decide)
  · exact ((addState_addEvent_spec wBase wMissing "flip").2.1 (by decide)).1
  · exact ((addState_addEvent_spec wBase wMissing "flip").2.1 (by decide)).2.1
  · exact (addState_addEvent_spec wBase wOff "switch").2.2.1 (by decide)
  · exact ((addState_addEvent_spec wBase wMissing "flip").2.2.2 (by decide)).1
  · exact ((addState_addEvent_spec wBase wMissing "flip").2.2.2 (by decide)).2.1

/-- Claim C9: the two `QueuedFSM.ProcessEvent` implementations — the one in
`src/queued_fsm.go` waiting on a `parallel.Notification` and the one in
`src/unnamed/part_001` waiting on a `sync.WaitGroup` — are observationally
equivalent: both hand the same entry to the same worker-loop body, block the
caller until the completion callback fires, and return exactly the result the
wrapped `FSM.ProcessEvent` produced on that event. -/
theorem queuedProcessEvent_equiv (fsm : FSM π) (ev : Event) :
    QueuedProcessEventNotif fsm ev = QueuedProcessEventWG fsm ev ∧
    QueuedProcessEventNotif fsm ev = fsm.ProcessEvent ev := by
  unfold QueuedProcessEventNotif QueuedProcessEventWG queuedMainLoopIter
  cases fsm.ProcessEvent ev <;>
    simp [Notification.NewNotification, Notification.Done, WaitGroup.Add, WaitGroup.Done]

/-- Claim C10: `NewFSM s p` registers `s` during construction: afterwards
`CurrentState` returns `s`, `HasState s` holds, and `AddState` of any state
with the same identifier returns `AlreadyExists` with the engine unchanged. -/
theorem newFSM_registers_init (s : State) (p : π) :
    (NewFSM s p).CurrentState = some s ∧
    (NewFSM s p).HasState s = true ∧
    ∀ s' : State, s'.FSMStateID = s.FSMStateID →
      (NewFSM s p).AddState s' = (some .alreadyExists, NewFSM s p) := by
  refine ⟨?_, ?_, ?_⟩
  · simp [NewFSM, FSM.CurrentState, findReg]
  · simp [NewFSM, FSM.HasState, findReg]
  · intro s' h
    simp [NewFSM, FSM.AddState, FSM.HasState, findReg, h]

/-- Witness for C10: `NewFSM wOff 0` has `off` registered and current, and
re-adding a distinct state carrying the same identifier is rejected. -/
theorem newFSM_registers_init_witness :
    (NewFSM wOff (0 : Nat)).CurrentState = some wOff ∧
    (NewFSM wOff (0 : Nat)).HasState wOff = true ∧
    (NewFSM wOff (0 : Nat)).AddState wOffDup = (some .alreadyExists, NewFSM wOff (0 : Nat)) :=
  ⟨(newFSM_registers_init wOff 0).1, (newFSM_registers_init wOff 0).2.1,
    (newFSM_registers_init wOff 0).2.2 wOffDup rfl⟩

/-! ### Preemption protocol lemmas and claim C2 -/

theorem prun_append (st : PState) (l1 l2 : List PAction) :
    prun st (l1 ++ l2) =
      ((prun (prun st l1).1 l2).1, (prun st l1).2 ++ (prun (prun st l1).1 l2).2) := by
  induction l1 generalizing st with
  | nil => simp [prun]
  | cons a rest ih => simp [prun, ih]

theorem prun_arrives_from_some (cur elast : PEntry) (es : List PEntry) :
    prun { nextEntry := some cur, exitFlag := false } ((es ++ [elast]).map PAction.arrive) =
      ({ nextEntry := some elast, exitFlag := false }, (cur :: es).map POut.preempted) := by
  induction es generalizing cur with
  | nil => simp [prun, pstep]
  | cons e es' ih =>
    simp only [List.cons_append, List.map_cons, List.append_eq, prun, pstep]
    rw [ih e]
    simp

theorem prun_arrives_from_none (elast : PEntry) (es : List PEntry) :
    prun { nextEntry := none, exitFlag := false } ((es ++ [elast]).map PAction.arrive) =
      ({ nextEntry := some elast, exitFlag := false }, es.map POut.preempted) := by
  cases es with
  | nil => simp [prun, pstep]
  | cons e es' =>
    simp only [List.cons_append, List.map_cons, List.append_eq, prun, pstep]
    rw [prun_arrives_from_some e elast es']
    simp

/-- Only a still-queued entry can be preempted: a `preempted e` output implies
`e` was sitting in the slot at the start or arrived during the run. -/
theorem preempted_mem_prun (st : PState) (acts : List PAction) (e : PEntry)
    (h : POut.preempted e ∈ (prun st acts).2) :
    st.nextEntry = some e ∨ PAction.arrive e ∈ acts := by
  induction acts generalizing st with
  | nil => simp [prun] at h
  | cons a rest ih =>
    simp only [prun, List.mem_append] at h
    rcases h with h | h
    · cases a with
      | arrive e' =>
        cases hst : st.nextEntry with
        | none => simp [pstep, hst] at h
        | some p =>
          simp [pstep, hst] at h
          subst h
          exact Or.inl rfl
      | claim =>
        cases hex : st.exitFlag with
        | true => simp [pstep, hex] at h
        | false =>
          cases hst : st.nextEntry with
          | none => simp [pstep, hex, hst] at h
          | some p => simp [pstep, hex, hst] at h
      | closeReq =>
        cases hst : st.nextEntry with
        | none => simp [pstep, hst] at h
        | some p =>
          simp [pstep, hst] at h
          subst h
          exact Or.inl rfl
    · rcases ih (pstep st a).1 h with hslot | hrest
      · cases a with
        | arrive e' =>
          simp [pstep] at hslot
          subst hslot
          exact Or.inr (List.mem_cons_self _ _)
        | claim =>
          cases hex : st.exitFlag with
          | true =>
            simp [pstep, hex] at hslot
            exact Or.inl hslot
          | false =>
            cases hst : st.nextEntry with
            | none => simp [pstep, hex, hst] at hslot
            | some p => simp [pstep, hex, hst] at hslot
        | closeReq => simp [pstep] at hslot
      · exact Or.inr (List.mem_cons_of_mem _ hrest)

/-- Claim C2: in the preemptive scheduler, only a still-queued, unclaimed
entry can be displaced.  Starting from an empty slot (the worker is busy with
a previously claimed event), a window of submissions `es ++ [elast]` followed
by the worker's claim preempts exactly the earlier submissions `es`, in
order, while the most recent submission `elast` survives and is claimed for
processing; and once claimed, `elast` is immune: no later step sequence in
which it does not re-arrive ever fulfills it with the preemption error. -/
theorem preemptive_latest_wins (es : List PEntry) (elast : PEntry) (more : List PAction)
    (hmore : PAction.arrive elast ∉ more) :
    (prun { nextEntry := none, exitFlag := false }
        ((es ++ [elast]).map PAction.arrive ++ [PAction.claim])).2
      = es.map POut.preempted ++ [POut.claimed elast] ∧
    (prun { nextEntry := none, exitFlag := false }
        ((es ++ [elast]).map PAction.arrive ++ [PAction.claim])).1
      = { nextEntry := none, exitFlag := false } ∧
    POut.preempted elast ∉
      (prun (prun { nextEntry := none, exitFlag := false }
          ((es ++ [elast]).map PAction.arrive ++ [PAction.claim])).1 more).2 := by
  have hrun : prun { nextEntry := none, exitFlag := false }
      ((es ++ [elast]).map PAction.arrive ++ [PAction.claim])
      = ({ nextEntry := none, exitFlag := false },
          es.map POut.preempted ++ [POut.claimed elast]) := by
    rw [prun_append, prun_arrives_from_none]
    simp [prun, pstep]
  refine ⟨by rw [hrun], by rw [hrun], ?_⟩
  rw [hrun]
  intro hmem
  rcases preempted_mem_prun _ more elast hmem with h | h
  · simp at h
  · exact hmore h

def wE1 : PEntry := { ev := wSwitch, tag := 1 }

def wE2 : PEntry := { ev := wSwitch, tag := 2 }

def wE3 : PEntry := { ev := wSwitch, tag := 3 }

/-- Witness for C2: submissions `wE1, wE2` arrive while the worker is busy;
`wE1` is preempted, `wE2` survives and is claimed, and `wE2` is not preempted
by a later arrival of `wE3` followed by a claim. -/
theorem preemptive_latest_wins_witness :
    (prun { nextEntry := none, exitFlag := false }
        (([wE1] ++ [wE2]).map PAction.arrive ++ [PAction.claim])).2
      = [POut.preempted wE1, POut.claimed wE2] ∧
    POut.preempted wE2 ∉
      (prun (prun { nextEntry := none, exitFlag := false }
          (([wE1] ++ [wE2]).map PAction.arrive ++ [PAction.claim])).1
        [PAction.arrive wE3, PAction.claim]).2 := by
  have h := preemptive_latest_wins [wE1] wE2 [PAction.arrive wE3, PAction.claim] (by decide)
  exact ⟨h.1, h.2.2⟩

/-! ### Engine well-formedness and claim C6 -/

/-- The engine invariant: the current state identifier is a key of the state
registry, and every transition stored in the table has a registered target
state. -/
def WellFormed (fsm : FSM π) : Prop :=
  (findReg fsm.states fsm.curState).isSome = true ∧
  ∀ sid evMap, findReg fsm.transitions sid = some evMap →
    ∀ eid tl, findReg evMap eid = some tl →
      ∀ t ∈ tl, (findReg fsm.states t.toState.FSMStateID).isSome = true

theorem wf_new (s : State) (p : π) : WellFormed (NewFSM s p) := by
  constructor
  · simp [NewFSM, findReg]
  · intro sid evMap h
    simp [NewFSM, findReg] at h

theorem wf_addState (fsm : FSM π) (s : State) (h : WellFormed fsm) :
    WellFormed (fsm.AddState s).2 := by
  cases hs : fsm.HasState s with
  | true => simpa [FSM.AddState, hs] using h
  | false =>
    simp only [FSM.AddState, hs, Bool.false_eq_true, if_false]
    refine ⟨isSome_findReg_insertReg _ _ _ _ h.1, ?_⟩
    intro sid evMap hm eid tl htl t ht
    exact isSome_findReg_insertReg _ _ _ _ (h.2 sid evMap hm eid tl htl t ht)

theorem wf_addEvent (fsm : FSM π) (e : String) (h : WellFormed fsm) :
    WellFormed (fsm.AddEvent e).2 := by
  cases hs : fsm.HasEvent e with
  | true => simpa [FSM.AddEvent, hs] using h
  | false => simpa [FSM.AddEvent, hs, WellFormed] using h

theorem wf_addTransition (fsm : FSM π) (fromState : State) (evId : String) (toS : State)
    (a? : Option (π → Event → Option Err)) (g? : Option (π → Event → Bool))
    (h : WellFormed fsm) : WellFormed (fsm.AddTransition fromState evId toS a? g?).2 := by
  cases h1 : fsm.HasState fromState with
  | false => simpa [FSM.AddTransition, h1] using h
  | true =>
    cases h2 : fsm.HasEvent evId with
    | false => simpa [FSM.AddTransition, h1, h2] using h
    | true =>
      cases h3 : fsm.HasState toS with
      | false => simpa [FSM.AddTransition, h1, h2, h3] using h
      | true =>
        simp only [FSM.AddTransition, h1, h2, h3, Bool.true_eq_false, if_false, if_true]
        refine ⟨h.1, ?_⟩
        intro sid evMap0 hm eid tl0 htl t ht
        by_cases hsid : sid = fromState.FSMStateID
        · subst hsid
          rw [findReg_insertReg_self] at hm
          injection hm with hm
          subst hm
          by_cases heid : eid = evId
          · subst heid
            rw [findReg_insertReg_self] at htl
            injection htl with htl
            subst htl
            rcases List.mem_append.mp ht with ht | ht
            · -- an old transition of the (possibly absent) previous list
              cases hold : findReg fsm.transitions fromState.FSMStateID with
              | none => simp [hold, findReg] at ht
              | some m0 =>
                cases holdl : findReg m0 eid with
                | none => simp [hold, holdl] at ht
                | some l0 =>
                  refine h.2 fromState.FSMStateID m0 hold eid l0 holdl t ?_
                  simpa [hold, holdl] using ht
            · -- the newly appended transition: its target passed the check
              have hteq : t = ⟨toS, g?.getD defaultGuard, a?.getD defaultAction⟩ := by
                simpa using ht
              subst hteq
              exact h3
          · rw [findReg_insertReg_ne _ _ _ _ heid] at htl
            cases hold : findReg fsm.transitions fromState.FSMStateID with
            | none => simp [hold, findReg] at htl
            | some m0 =>
              refine h.2 fromState.FSMStateID m0 hold eid tl0 ?_ t ht
              simpa [hold] using htl
        · rw [findReg_insertReg_ne _ _ _ _ hsid] at hm
          exact h.2 sid evMap0 hm eid tl0 htl t ht

theorem wf_processEvent (fsm fsm' : FSM π) (ev : Event) (err : Option Err)
    (h : WellFormed fsm) (hp : fsm.ProcessEvent ev = .ok err fsm') :
    WellFormed fsm' := by
  by_cases hc : fsm.processEventInvokeCounter = 0
  · rw [processEvent_eq_dispatch fsm ev hc] at hp
    injection hp with h1 h2
    subst h2
    unfold dispatch
    cases hl : fsm.transList ev with
    | none => exact h
    | some tl =>
      show WellFormed (processTransList fsm ev tl).2
      obtain ⟨hstates, _, htrans, _, _⟩ := processTransList_preserves fsm ev tl
      refine ⟨?_, ?_⟩
      · rw [hstates]
        rcases processTransList_curState fsm ev tl with hcur | ⟨t, ht, _, hcur⟩
        · rw [hcur]
          exact h.1
        · rw [hcur]
          have hl' := hl
          simp only [FSM.transList, Option.bind_eq_some] at hl'
          obtain ⟨m, hm, hml⟩ := hl'
          exact h.2 fsm.curState m hm ev.FSMEventID tl hml t ht
      · intro sid evMap hm eid tl0 htl t ht
        rw [htrans] at hm
        rw [hstates]
        exact h.2 sid evMap hm eid tl0 htl t ht
  · rw [processEvent_panicked_of_ne fsm ev hc] at hp
    exact absurd hp (by simp)

/-- Claim C6: for every engine reachable from `NewFSM` by any sequence of
`AddState`, `AddEvent`, `AddTransition` and non-reentrant `ProcessEvent`
calls, the current state identifier is a key of the state registry, so
`CurrentState` returns a previously registered `State` (never Go's nil). -/
theorem reachable_currentState_registered (fsm : FSM π) (h : Reachable fsm) :
    (fsm.CurrentState).isSome = true := by
  have hwf : WellFormed fsm := by
    induction h with
    | new s p => exact wf_new s p
    | addState s _ ih => exact wf_addState _ s ih
    | addEvent e _ ih => exact wf_addEvent _ e ih
    | addTransition fromState evId toS a? g? _ ih =>
      exact wf_addTransition _ fromState evId toS a? g? ih
    | processEvent _ hp ih => exact wf_processEvent _ _ _ _ ih hp
  exact hwf.1

/-- Witness for C6: a freshly constructed engine is reachable and its
`CurrentState` is a registered state. -/
theorem reachable_currentState_registered_witness :
    ((NewFSM wOff (0 : Nat)).CurrentState).isSome = true :=
  reachable_currentState_registered _ (Reachable.new wOff 0)

end FsmGo
